import Mathlib

/-!
Shallow embedding of the replication engine of `src/core/copyService.js`
(the `copyCollections` function and its helper `copyIndexesToTarget`).

Documents are modelled with a numeric identity field `_id`, an opaque
payload, an optional incremental-timestamp value (`none` models a document
that lacks the configured `timestampField`), and the `_validationTest`
marker used by the schema probe.  A target collection carries its document
list together with an `accept` predicate modelling a server-side
collection validator (the reason a write against the target can fail even
when the documents are well-formed).  Insert operations fail on a
duplicate `_id` (the unique primary-key index) or on a rejected document.
The whole engine is embedded as executable functions; effects against the
target are additionally recorded as a trace of `TOp` operations and the
connection lifecycle as a trace of `Ev` events, mirroring the order of the
statements in the source.
-/

namespace MongoCopy

/-- A document: identity, payload, optional timestamp-field value, and the
schema-probe marker field `_validationTest` (false on real documents). -/
structure Doc where
  _id : Nat
  payload : Nat
  updatedAt : Option Nat := none
  validationTest : Bool := false
deriving DecidableEq, Repr

/-- A target collection: its documents plus a validator predicate
(`accept d = false` makes any insert or replace of `d` fail, as a
MongoDB collection validator would). -/
structure TColl where
  docs : List Doc
  accept : Doc → Bool

/-- The empty target collection with no validator, as obtained from
`targetDb.collection(name)` when the collection does not exist yet. -/
def TColl.fresh : TColl := ⟨[], fun _ => true⟩

/-- One per-collection result record, as pushed onto `summary` in the
source (`{ name, copied, total, status, error? }`). -/
structure CollResult where
  name : String
  copied : Nat
  total : Nat
  status : String
  error : Option String := none
deriving DecidableEq, Repr

/-- Job configuration: the option bag of `copyCollections` restricted to
the fields the engine branches on.  `since = none` models both a null
`since` and a non-incremental run's absent bound. -/
structure Config where
  collections : List String := []
  dryRun : Bool := false
  batchSize : Nat := 1000
  exportJson : Bool := false
  importJson : Bool := false
  copyIndexes : Bool := false
  validateSchema : Bool := false
  incremental : Bool := false
  since : Option Nat := none
deriving Repr

/-- Operations attempted against the target collection, in program order. -/
inductive TOp where
  | probeInsert (d : Doc)
  | probeDelete (id : Nat)
  | deleteAll
  | insertBatch (b : List Doc)
  | upsertBatch (b : List Doc)
  | createIdx
deriving DecidableEq, Repr

/-- Connection lifecycle events of one run. -/
inductive Ev where
  | connectSource
  | connectTarget
  | closeSource
  | closeTarget
deriving DecidableEq, Repr

/-- The query built at the top of the loop: `{}` unless
`incremental && since`, in which case `{ [timestampField]: { $gte: since } }`.
A document lacking the timestamp field never satisfies `$gte`. -/
def matchesQuery (incremental : Bool) (since : Option Nat) (d : Doc) : Bool :=
  match incremental, since with
  | true, some s =>
    match d.updatedAt with
    | some t => s ≤ t
    | none => false
  | _, _ => true

/-- `true` iff the collection already holds a document with `d`'s `_id`
(the condition under which an insert raises a duplicate-key error). -/
def dupKey (c : TColl) (d : Doc) : Bool :=
  c.docs.any (fun e => e._id == d._id)

/-- `insertOne`: fails on a duplicate key or a validator rejection,
otherwise appends the document. -/
def insertOne (c : TColl) (d : Doc) : Except String TColl :=
  if dupKey c d then .error "duplicate key"
  else if c.accept d then .ok { c with docs := c.docs ++ [d] }
  else .error "document validation failed"

/-- `deleteOne({ _id: id })`: removes the first document with that `_id`. -/
def deleteOneById (c : TColl) (id : Nat) : TColl :=
  { c with docs := c.docs.eraseP (fun e => e._id == id) }

/-- `insertMany(batch, { ordered: false })`: every document is attempted;
failed inserts are skipped but remembered, and the call as a whole raises
(second component `true`) when any individual insert failed. -/
def insertManyUnordered (c : TColl) (batch : List Doc) : TColl × Bool :=
  batch.foldl
    (fun acc d =>
      match insertOne acc.1 d with
      | .ok c2 => (c2, acc.2)
      | .error _ => (acc.1, true))
    (c, false)

/-- Replace the first document whose `_id` matches `d._id` by `d`. -/
def replaceById (docs : List Doc) (d : Doc) : List Doc :=
  match docs with
  | [] => []
  | e :: rest => if e._id == d._id then d :: rest else e :: replaceById rest d

/-- One `replaceOne` with `upsert: true` on filter `{ _id: d._id }`:
replace the matching document, or append `d` when no document matches;
fails (without changing the collection) when the validator rejects `d`. -/
def upsertOne (c : TColl) (d : Doc) : TColl × Bool :=
  if c.accept d then
    if dupKey c d then ({ c with docs := replaceById c.docs d }, false)
    else ({ c with docs := c.docs ++ [d] }, false)
  else (c, true)

/-- `bulkWrite(ops, { ordered: false })` where every op is a
`replaceOne`-upsert: all ops are attempted, and the call raises when any
op failed. -/
def bulkUpsertUnordered (c : TColl) (batch : List Doc) : TColl × Bool :=
  batch.foldl
    (fun acc d => ((upsertOne acc.1 d).1, acc.2 || (upsertOne acc.1 d).2))
    (c, false)

/-- Worker for `chunks`, structurally recursive on a fuel argument (one
unit of fuel per emitted batch; a batch always consumes at least one
document, so `l.length` units suffice). -/
def chunksGo : Nat → Nat → List Doc → List (List Doc)
  | _, _, [] => []
  | _, 0, _ :: _ => []
  | 0, _ + 1, _ :: _ => []
  | fuel + 1, b + 1, d :: rest => (d :: rest.take b) :: chunksGo fuel (b + 1) (rest.drop b)

/-- The batching loop of the source (`while hasNext { for i < batchSize … }`
and the incremental flush-at-batchSize loop): split the cursor's output
into windows of `batchSize`.  The source diverges when `batchSize = 0`;
that case is never reached for a valid configuration and is mapped to no
batches here. -/
def chunks (b : Nat) (l : List Doc) : List (List Doc) :=
  chunksGo l.length b l

/-- The predicate-matched source documents of one collection: what
`col.find(query)` enumerates and `col.countDocuments(query)` counts. -/
def matchedDocs (cfg : Config) (src : List Doc) : List Doc :=
  src.filter (matchesQuery cfg.incremental cfg.since)

/-- The identities of a document list. -/
def idsOf (l : List Doc) : List Nat :=
  l.map Doc._id

/-- The schema probe (lines 116–129 of the source): insert a copy of the
sampled document tagged with `_validationTest: true` — the spread keeps the
sample's `_id` — and, on an acknowledged insert, delete it again by that
generated identity.  Returns the collection state together with the target
operations attempted; an error is the caught probe failure. -/
def schemaProbe (tgt : TColl) (sample : Doc) : Except String TColl × List TOp :=
  let probe : Doc := { sample with validationTest := true }
  match insertOne tgt probe with
  | .error e => (.error e, [TOp.probeInsert probe])
  | .ok t2 =>
    (.ok (deleteOneById t2 probe._id), [TOp.probeInsert probe, TOp.probeDelete probe._id])

/-- Output of processing one collection: the result record (or the error
of an uncaught exception that aborts the whole run), the new target
collection, the new artifact directory (data files keyed by collection
name, plus the set of names having an index file), and the trace of
operations attempted against the target. -/
structure StepOut where
  res : Except String CollResult
  tgt : TColl
  files : List (String × List Doc)
  idxFiles : List String
  ops : List TOp

/-- Apply one write call per batch, accumulating the operation trace; a
raising call (second component `true`) stops the loop with the batches so
far applied, like the uncaught exception in the source. -/
def applyBatches (f : TColl → List Doc → TColl × Bool) (tag : List Doc → TOp) :
    TColl → List (List Doc) → TColl × List TOp × Bool
  | tgt, [] => (tgt, [], false)
  | tgt, b :: bs =>
    let (t2, err) := f tgt b
    if err then (t2, [tag b], true)
    else
      let (t3, ops, e2) := applyBatches f tag t2 bs
      (t3, tag b :: ops, e2)

/-- Total of the running `copied` counter over the batches. -/
def copiedCount (bs : List (List Doc)) : Nat :=
  bs.foldl (fun a b => a + b.length) 0

/-- The part of the loop body after the schema probe (lines 132–280 of the
source): dry-run short-circuit, JSON import, JSON export, or the live
transfer with its two write strategies, in the source's branch order.
`t0` is the target collection as left by the probe and `matched` the
predicate-matched source documents (`total = matched.length`). -/
def transferStage (cfg : Config) (name : String) (total : Nat) (matched : List Doc)
    (t0 : TColl) (files : List (String × List Doc)) (idxFiles : List String) : StepOut :=
  if cfg.dryRun then
    { res := .ok { name, copied := 0, total, status := "dry-run" },
      tgt := t0, files, idxFiles, ops := [] }
  else if cfg.importJson then
    match (files.find? (fun p => p.1 == name)).map Prod.snd with
    | none =>
      { res := .ok { name, copied := 0, total := 0, status := "no-json-file" },
        tgt := t0, files, idxFiles, ops := [] }
    | some json =>
      if json.length = 0 then
        { res := .ok { name, copied := 0, total := 0, status := "json-empty" },
          tgt := t0, files, idxFiles, ops := [] }
      else
        let batches := chunks cfg.batchSize json
        if cfg.incremental then
          let step := applyBatches bulkUpsertUnordered TOp.upsertBatch t0 batches
          if step.2.2 then
            { res := .error "bulk write error", tgt := step.1, files, idxFiles,
              ops := step.2.1 }
          else
            let iOps := if cfg.copyIndexes && idxFiles.contains name then [TOp.createIdx] else []
            { res := .ok { name, copied := json.length, total := json.length,
                           status := "imported-json" },
              tgt := step.1, files, idxFiles, ops := step.2.1 ++ iOps }
        else
          let t1 : TColl := { t0 with docs := [] }
          let step := applyBatches insertManyUnordered TOp.insertBatch t1 batches
          if step.2.2 then
            { res := .error "insert error", tgt := step.1, files, idxFiles,
              ops := [TOp.deleteAll] ++ step.2.1 }
          else
            let iOps := if cfg.copyIndexes && idxFiles.contains name then [TOp.createIdx] else []
            { res := .ok { name, copied := json.length, total := json.length,
                           status := "imported-json" },
              tgt := step.1, files, idxFiles, ops := [TOp.deleteAll] ++ step.2.1 ++ iOps }
  else if cfg.exportJson then
    let files2 := (files.filter (fun p => p.1 != name)) ++ [(name, matched)]
    let idx2 := if cfg.copyIndexes && !idxFiles.contains name then idxFiles ++ [name] else idxFiles
    { res := .ok { name, copied := matched.length, total, status := "exported-json" },
      tgt := t0, files := files2, idxFiles := idx2, ops := [] }
  else
    let batches := chunks cfg.batchSize matched
    if cfg.incremental then
      let step := applyBatches bulkUpsertUnordered TOp.upsertBatch t0 batches
      if step.2.2 then
        { res := .error "bulk write error", tgt := step.1, files, idxFiles,
          ops := step.2.1 }
      else
        let iOps := if cfg.copyIndexes then [TOp.createIdx] else []
        { res := .ok { name, copied := copiedCount batches, total,
                       status := "incremental-copied" },
          tgt := step.1, files, idxFiles, ops := step.2.1 ++ iOps }
    else
      let t1 : TColl := { t0 with docs := [] }
      let step := applyBatches insertManyUnordered TOp.insertBatch t1 batches
      if step.2.2 then
        { res := .error "insert error", tgt := step.1, files, idxFiles,
          ops := [TOp.deleteAll] ++ step.2.1 }
      else
        let iOps := if cfg.copyIndexes then [TOp.createIdx] else []
        { res := .ok { name, copied := copiedCount batches, total, status := "copied" },
          tgt := step.1, files, idxFiles, ops := [TOp.deleteAll] ++ step.2.1 ++ iOps }

/-- The body of the per-collection loop (lines 99–281 of the source):
query construction, zero-total short-circuit, schema probe, then
`transferStage`.  `res` is `.error` precisely when the source would let
an exception escape the loop body (a raising batch write). -/
def processCollection (cfg : Config) (name : String) (src : List Doc)
    (tgt : TColl) (files : List (String × List Doc)) (idxFiles : List String) : StepOut :=
  let matched := matchedDocs cfg src
  let total := matched.length
  if total = 0 then
    { res := .ok { name, copied := 0, total,
                   status := if cfg.incremental then "no-new-docs" else "empty" },
      tgt, files, idxFiles, ops := [] }
  else
    let probeStep : Except String TColl × List TOp :=
      if cfg.validateSchema && !cfg.dryRun && !cfg.exportJson then
        match matched.head? with
        | some sample => schemaProbe tgt sample
        | none => (.ok tgt, [])
      else (.ok tgt, [])
    match probeStep with
    | (.error e, pOps) =>
      { res := .ok { name, copied := 0, total, status := "schema-validation-failed",
                     error := some e },
        tgt, files, idxFiles, ops := pOps }
    | (.ok t0, pOps) =>
      let out := transferStage cfg name total matched t0 files idxFiles
      { out with ops := pOps ++ out.ops }

/-- The state visible to one run: source collections in listing order,
target collections, and the JSON artifact directory. -/
structure World where
  src : List (String × List Doc)
  tgt : List (String × TColl)
  files : List (String × List Doc) := []
  idxFiles : List String := []

/-- Look up a collection of the target database; a name that was never
written is a fresh empty collection. -/
def getTgt (tgts : List (String × TColl)) (name : String) : TColl :=
  match tgts.find? (fun p => p.1 == name) with
  | some p => p.2
  | none => TColl.fresh

/-- Store back a target collection under its name. -/
def setTgt (tgts : List (String × TColl)) (name : String) (c : TColl) :
    List (String × TColl) :=
  (tgts.filter (fun p => p.1 != name)) ++ [(name, c)]

/-- Collection selection (lines 93–96 of the source): all source
collections when none are requested, otherwise the requested list
filtered to the names that exist on the source — in the requested
list's own order. -/
def resolveCollections (requested allNames : List String) : List String :=
  if requested.isEmpty then allNames
  else requested.filter (fun c => allNames.contains c)

/-- The `for (const name of collections)` loop: process each resolved
collection in order, threading the target and artifact state and
collecting results and per-collection operation traces.  An `.error`
from a collection body escapes immediately (no further collections are
processed), as the uncaught exception does in the source. -/
def runLoop (cfg : Config) :
    List String → World → Except String (List CollResult) × World × List (String × List TOp)
  | [], w => (.ok [], w, [])
  | n :: rest, w =>
    let src := match w.src.find? (fun p => p.1 == n) with
      | some p => p.2
      | none => []
    let out := processCollection cfg n src (getTgt w.tgt n) w.files w.idxFiles
    let w2 : World := { w with tgt := setTgt w.tgt n out.tgt,
                               files := out.files, idxFiles := out.idxFiles }
    match out.res with
    | .error e => (.error e, w2, [(n, out.ops)])
    | .ok r =>
      match runLoop cfg rest w2 with
      | (.ok rs, w3, ts) => (.ok (r :: rs), w3, (n, out.ops) :: ts)
      | (.error e, w3, ts) => (.error e, w3, (n, out.ops) :: ts)

/-- Full result of one run: the summary or the escaping error, the final
world, the connection-event trace, and the per-collection operation
traces. -/
structure RunOut where
  res : Except String (List CollResult)
  world : World
  events : List Ev
  traces : List (String × List TOp)

/-- `copyCollections` (lines 57–288 of the source).  The two `connect()`
calls (lines 76–77) run before the `try`; the `finally` (lines 283–287)
closes both clients whenever the `try` block was entered, whether the
loop returned or raised.  `srcOk` / `tgtOk` say whether the respective
`connect()` succeeds. -/
def copyCollections (cfg : Config) (w : World) (srcOk tgtOk : Bool) : RunOut :=
  if !srcOk then
    { res := .error "source connect failed", world := w,
      events := [Ev.connectSource], traces := [] }
  else if !tgtOk then
    { res := .error "target connect failed", world := w,
      events := [Ev.connectSource, Ev.connectTarget], traces := [] }
  else
    let resolved := resolveCollections cfg.collections (w.src.map Prod.fst)
    let r := runLoop cfg resolved w
    { res := r.1, world := r.2.1,
      events := [Ev.connectSource, Ev.connectTarget, Ev.closeSource, Ev.closeTarget],
      traces := r.2.2 }

/-! ### Concrete fixtures used to evaluate the engine at specific inputs -/

def docA : Doc := { _id := 1, payload := 10 }

def docB : Doc := { _id := 2, payload := 20 }

def docC : Doc := { _id := 3, payload := 30 }

/-- Two plain source collections `a` and `b`, empty target. -/
def wTwo : World := { src := [("a", [docA]), ("b", [docB])], tgt := [] }

/-- One source collection with no documents. -/
def wEmptySrc : World := { src := [("empty", [])], tgt := [] }

/-- Collection `c` has one source document but the target's collection `c`
carries a validator that rejects it; collection `d` is plain. -/
def wReject : World :=
  { src := [("c", [docA]), ("d", [docB])],
    tgt := [("c", ⟨[], fun d => d.payload < 5⟩)] }

/-- Import-mode world: source collection `c` is non-empty but no data
artifact file exists for it. -/
def wImportMissing : World := { src := [("c", [docA])], tgt := [], files := [] }

/-- Import-mode world: the data artifact for `c` exists and is an empty
array. -/
def wImportEmpty : World := { src := [("c", [docA])], tgt := [], files := [("c", [])] }

/-- A target collection that already contains `docA` (same `_id` as the
source sample) and accepts everything. -/
def tWithA : TColl := ⟨[docA], fun _ => true⟩

/-- A source document carrying a timestamp-field value inside the
incremental window (`updatedAt = 7 ≥ since = 5`). -/
def docT1 : Doc := { _id := 1, payload := 10, updatedAt := some 7 }

/-- A source document carrying a timestamp-field value outside the
incremental window (`updatedAt = 3 < since = 5`). -/
def docT2 : Doc := { _id := 2, payload := 20, updatedAt := some 3 }

/-- A target collection holding an unrelated pre-existing document. -/
def tWithOld : TColl := ⟨[{ _id := 9, payload := 99 }], fun _ => true⟩

/-! ### Lemmas about the batch streamer -/

theorem chunksGo_fuel_irrel :
    ∀ (fuel b : Nat) (l : List Doc), l.length ≤ fuel →
      chunksGo fuel b l = chunksGo l.length b l := by
  intro fuel
  induction fuel using Nat.strong_induction_on with
  | _ fuel ih =>
    intro b l h
    cases l with
    | nil => cases fuel <;> cases b <;> rfl
    | cons d rest =>
      cases b with
      | zero => cases fuel <;> rfl
      | succ b0 =>
        cases fuel with
        | zero => simp at h
        | succ f =>
          simp only [List.length_cons] at h
          simp only [chunksGo, List.length_cons]
          have hdf : (rest.drop b0).length ≤ f := by
            simp only [List.length_drop]
            omega
          have hdr : (rest.drop b0).length ≤ rest.length := by
            simp only [List.length_drop]
            omega
          rw [ih f (Nat.lt_succ_self f) (b0 + 1) (rest.drop b0) hdf,
              ih rest.length (by omega) (b0 + 1) (rest.drop b0) hdr]

theorem chunks_nil (b : Nat) : chunks b [] = [] := by
  simp [chunks, chunksGo]

theorem chunks_cons (b : Nat) (d : Doc) (rest : List Doc) :
    chunks (b + 1) (d :: rest) = (d :: rest.take b) :: chunks (b + 1) (rest.drop b) := by
  simp only [chunks, List.length_cons, chunksGo]
  rw [chunksGo_fuel_irrel rest.length (b + 1) (rest.drop b)
      (by simp only [List.length_drop]; omega)]

theorem chunks_flatten (b : Nat) (l : List Doc) : (chunks (b + 1) l).flatten = l := by
  match l with
  | [] => simp [chunks, chunksGo]
  | d :: rest =>
    have ih := chunks_flatten b (rest.drop b)
    rw [chunks_cons, List.flatten_cons, ih]
    simp [List.take_append_drop]
termination_by l.length
decreasing_by
  simp only [List.length_drop, List.length_cons]
  omega

theorem chunks_length (b : Nat) (l : List Doc) :
    (chunks (b + 1) l).length = (l.length + b) / (b + 1) := by
  match l with
  | [] =>
    simp only [chunks_nil, List.length_nil, Nat.zero_add]
    exact (Nat.div_eq_of_lt (by omega)).symm
  | d :: rest =>
    have ih := chunks_length b (rest.drop b)
    rw [chunks_cons]
    simp only [List.length_cons, List.length_drop] at ih ⊢
    rw [ih]
    rcases Nat.le_total rest.length b with hle | hge
    · have h1 : rest.length - b = 0 := by omega
      have h2 : (rest.length + 1 + b) / (b + 1) = 1 := by
        exact Nat.div_eq_of_lt_le (by omega) (by omega)
      have h3 : b / (b + 1) = 0 := Nat.div_eq_of_lt (by omega)
      rw [h1, h2]
      simp [h3]
    · have h1 : rest.length + 1 + b = rest.length - b + b + (b + 1) := by omega
      have h2 : rest.length - b + b = rest.length := by omega
      rw [h1, Nat.add_div_right _ (Nat.succ_pos b), h2]
termination_by l.length
decreasing_by
  simp only [List.length_drop, List.length_cons]
  omega

theorem chunks_size (b : Nat) (l : List Doc) :
    ∀ c ∈ chunks (b + 1) l, 1 ≤ c.length ∧ c.length ≤ b + 1 := by
  match l with
  | [] => simp [chunks, chunksGo]
  | d :: rest =>
    have ih := chunks_size b (rest.drop b)
    rw [chunks_cons]
    intro c hc
    rcases List.mem_cons.mp hc with h | h
    · subst h
      simp only [List.length_cons, List.length_take]
      omega
    · exact ih c h
termination_by l.length
decreasing_by
  simp only [List.length_drop, List.length_cons]
  omega

theorem chunks_dropLast_size (b : Nat) (l : List Doc) :
    ∀ c ∈ (chunks (b + 1) l).dropLast, c.length = b + 1 := by
  match l with
  | [] => simp [chunks, chunksGo]
  | d :: rest =>
    have ih := chunks_dropLast_size b (rest.drop b)
    rw [chunks_cons]
    intro c hc
    rcases h0 : chunks (b + 1) (rest.drop b) with _ | ⟨c1, cs⟩
    · rw [h0] at hc
      simp at hc
    · rw [h0] at hc ih
      rw [List.dropLast_cons_of_ne_nil (by simp)] at hc
      rcases List.mem_cons.mp hc with h | h
      · subst h
        have hne : rest.drop b ≠ [] := by
          intro hcon
          rw [hcon, chunks_nil] at h0
          exact List.noConfusion h0
        have : b ≤ rest.length := by
          by_contra hlt
          exact hne (List.drop_eq_nil_of_le (by omega))
        simp only [List.length_cons, List.length_take]
        omega
      · exact ih c h
termination_by l.length
decreasing_by
  simp only [List.length_drop, List.length_cons]
  omega

/-- The running `copied` counter equals the number of documents in all
batches together. -/
theorem copiedCount_eq (bs : List (List Doc)) :
    copiedCount bs = bs.flatten.length := by
  have h : ∀ (a : Nat), bs.foldl (fun a b => a + b.length) a = a + bs.flatten.length := by
    induction bs with
    | nil => simp
    | cons b rest ih =>
      intro a
      simp only [List.foldl_cons, List.flatten_cons, List.length_append, ih]
      omega
  simpa [copiedCount] using h 0

/-! ### Lemmas about the full-replace write strategy -/

theorem idsOf_append (a b : List Doc) : idsOf (a ++ b) = idsOf a ++ idsOf b := by
  simp [idsOf]

theorem dupKey_false_iff (c : TColl) (d : Doc) :
    dupKey c d = false ↔ d._id ∉ idsOf c.docs := by
  simp only [dupKey, idsOf, List.any_eq_false, List.mem_map, beq_iff_eq]
  constructor
  · rintro h ⟨e, he, heq⟩
    exact h e he heq
  · intro h e he heq
    exact h ⟨e, he, heq⟩

theorem insertManyUnordered_ok (c : TColl) (batch : List Doc)
    (hacc : ∀ d ∈ batch, c.accept d = true)
    (hnd : (idsOf batch).Nodup)
    (hfresh : ∀ d ∈ batch, d._id ∉ idsOf c.docs) :
    insertManyUnordered c batch = ({ c with docs := c.docs ++ batch }, false) := by
  induction batch generalizing c with
  | nil => simp [insertManyUnordered]
  | cons d rest ih =>
    have hdup : dupKey c d = false :=
      (dupKey_false_iff c d).mpr (hfresh d (List.mem_cons_self d rest))
    have hstep : insertOne c d = .ok { c with docs := c.docs ++ [d] } := by
      simp [insertOne, hdup, hacc d (List.mem_cons_self d rest)]
    have hnd2 : (idsOf rest).Nodup := by
      simpa [idsOf] using hnd.of_cons
    have hid : d._id ∉ idsOf rest := by
      have := hnd
      simp only [idsOf, List.map_cons, List.nodup_cons] at this
      simpa [idsOf] using this.1
    have hfresh2 : ∀ e ∈ rest, e._id ∉ idsOf ({ c with docs := c.docs ++ [d] } : TColl).docs := by
      intro e he
      simp only [idsOf_append]
      intro hmem
      rcases List.mem_append.mp hmem with h | h
      · exact hfresh e (List.mem_cons_of_mem d he) h
      · simp only [idsOf, List.map_cons, List.map_nil, List.mem_singleton] at h
        exact hid (h ▸ List.mem_map_of_mem Doc._id he)
    have hacc2 : ∀ e ∈ rest, ({ c with docs := c.docs ++ [d] } : TColl).accept e = true := by
      intro e he
      exact hacc e (List.mem_cons_of_mem d he)
    have := ih { c with docs := c.docs ++ [d] } hacc2 hnd2 hfresh2
    simp only [insertManyUnordered, List.foldl_cons, hstep] at this ⊢
    rw [this]
    simp

theorem applyBatches_insert_ok (tag : List Doc → TOp) (t : TColl) (bs : List (List Doc))
    (hacc : ∀ b ∈ bs, ∀ d ∈ b, t.accept d = true)
    (hnd : (idsOf bs.flatten).Nodup)
    (hfresh : ∀ d ∈ bs.flatten, d._id ∉ idsOf t.docs) :
    applyBatches insertManyUnordered tag t bs =
      ({ t with docs := t.docs ++ bs.flatten }, bs.map tag, false) := by
  induction bs generalizing t with
  | nil => simp [applyBatches]
  | cons b rest ih =>
    have hsplit : idsOf (b :: rest).flatten = idsOf b ++ idsOf rest.flatten := by
      simp [idsOf_append]
    rw [hsplit] at hnd
    have hndb : (idsOf b).Nodup := hnd.of_append_left
    have hdisj : ∀ x ∈ idsOf b, x ∉ idsOf rest.flatten := by
      intro x hx
      exact (List.nodup_append.mp hnd).2.2 hx
    have hstep := insertManyUnordered_ok t b
      (hacc b (List.mem_cons_self b rest)) hndb
      (fun d hd => hfresh d (by simp [List.mem_flatten]; exact Or.inl hd))
    have hacc2 : ∀ b2 ∈ rest, ∀ d ∈ b2, ({ t with docs := t.docs ++ b } : TColl).accept d = true := by
      intro b2 hb2 d hd
      exact hacc b2 (List.mem_cons_of_mem b hb2) d hd
    have hnd2 : (idsOf rest.flatten).Nodup := hnd.of_append_right
    have hfresh2 : ∀ d ∈ rest.flatten,
        d._id ∉ idsOf ({ t with docs := t.docs ++ b } : TColl).docs := by
      intro d hd
      simp only [idsOf_append]
      intro hmem
      rcases List.mem_append.mp hmem with h | h
      · exact hfresh d (by simp only [List.flatten_cons, List.mem_append]; exact Or.inr hd) h
      · exact hdisj d._id h (List.mem_map_of_mem Doc._id hd)
    have := ih { t with docs := t.docs ++ b } hacc2 hnd2 hfresh2
    simp only [applyBatches, hstep, this]
    simp

/-! ### Lemmas about the incremental-upsert write strategy -/

theorem idsOf_replaceById (docs : List Doc) (d : Doc) :
    idsOf (replaceById docs d) = idsOf docs := by
  induction docs with
  | nil => rfl
  | cons e rest ih =>
    by_cases h : e._id == d._id
    · have heq : e._id = d._id := by simpa using h
      simp [replaceById, h, idsOf, heq]
    · simp only [replaceById, h, Bool.false_eq_true, if_false, idsOf, List.map_cons]
      simpa [idsOf] using ih

theorem replaceById_of_find_self (docs : List Doc) (d : Doc)
    (h : docs.find? (fun e => e._id == d._id) = some d) :
    replaceById docs d = docs := by
  induction docs with
  | nil => simp at h
  | cons e rest ih =>
    rw [List.find?_cons] at h
    by_cases hm : (e._id == d._id) = true
    · simp only [hm] at h
      have : e = d := by simpa using h
      simp [replaceById, hm, this]
    · simp only [Bool.not_eq_true] at hm
      simp only [hm] at h
      simp [replaceById, hm, ih h]

theorem find_replaceById_self (docs : List Doc) (d : Doc)
    (h : docs.any (fun e => e._id == d._id) = true) :
    (replaceById docs d).find? (fun e => e._id == d._id) = some d := by
  induction docs with
  | nil => simp at h
  | cons e rest ih =>
    by_cases hm : (e._id == d._id) = true
    · simp [replaceById, hm, List.find?_cons]
    · simp only [Bool.not_eq_true] at hm
      have h2 : rest.any (fun e => e._id == d._id) = true := by
        simp only [List.any_cons, hm, Bool.false_or] at h
        exact h
      simp only [replaceById, hm, Bool.false_eq_true, if_false]
      rw [List.find?_cons]
      simp only [hm]
      exact ih h2

theorem find_replaceById_other (docs : List Doc) (d : Doc) (id : Nat) (hne : id ≠ d._id) :
    (replaceById docs d).find? (fun e => e._id == id) = docs.find? (fun e => e._id == id) := by
  induction docs with
  | nil => rfl
  | cons e rest ih =>
    by_cases hm : (e._id == d._id) = true
    · have heq : e._id = d._id := by simpa using hm
      have hd : (d._id == id) = false := by
        simp only [beq_eq_false_iff_ne, ne_eq]
        exact fun hcon => hne hcon.symm
      have he : (e._id == id) = false := by rw [heq]; exact hd
      simp only [replaceById, hm, if_true]
      rw [List.find?_cons, List.find?_cons]
      simp only [hd, he]
    · simp only [Bool.not_eq_true] at hm
      simp only [replaceById, hm, Bool.false_eq_true, if_false]
      rw [List.find?_cons, List.find?_cons]
      by_cases he : (e._id == id) = true
      · simp only [he]
      · simp only [Bool.not_eq_true] at he
        simp only [he]
        exact ih

theorem upsertOne_accept (c : TColl) (d : Doc) : (upsertOne c d).1.accept = c.accept := by
  simp only [upsertOne]
  by_cases h1 : c.accept d <;> by_cases h2 : dupKey c d <;> simp [h1, h2]

theorem upsertOne_err_false (c : TColl) (d : Doc) (h : c.accept d = true) :
    (upsertOne c d).2 = false := by
  simp only [upsertOne, h]
  by_cases h2 : dupKey c d <;> simp [h2]

theorem upsertOne_find_self (c : TColl) (d : Doc) (h : c.accept d = true) :
    (upsertOne c d).1.docs.find? (fun e => e._id == d._id) = some d := by
  simp only [upsertOne, h, if_true]
  by_cases h2 : dupKey c d
  · simp only [h2, if_true]
    exact find_replaceById_self c.docs d (by simpa [dupKey] using h2)
  · simp only [h2, Bool.false_eq_true, if_false]
    have hnone : c.docs.find? (fun e => e._id == d._id) = none := by
      rw [List.find?_eq_none]
      intro e he hcon
      simp only [dupKey, List.any_eq_true] at h2
      exact h2 ⟨e, he, hcon⟩
    rw [List.find?_append, hnone, Option.none_or]
    simp [List.find?_cons]

theorem upsertOne_find_other (c : TColl) (d : Doc) (id : Nat) (hne : id ≠ d._id) :
    (upsertOne c d).1.docs.find? (fun e => e._id == id) = c.docs.find? (fun e => e._id == id) := by
  simp only [upsertOne]
  by_cases h1 : c.accept d
  · simp only [h1, if_true]
    by_cases h2 : dupKey c d
    · simp only [h2, if_true]
      exact find_replaceById_other c.docs d id hne
    · simp only [h2, Bool.false_eq_true, if_false]
      have hd : (d._id == id) = false := by
        simp only [beq_eq_false_iff_ne, ne_eq]
        exact fun hcon => hne hcon.symm
      rw [List.find?_append]
      have : List.find? (fun e => e._id == id) [d] = none := by
        simp [List.find?_cons, hd]
      rw [this, Option.or_none]
  · simp [h1]

theorem upsertFold (c : TColl) (e0 : Bool) (l : List Doc) :
    l.foldl (fun acc d => ((upsertOne acc.1 d).1, acc.2 || (upsertOne acc.1 d).2)) (c, e0) =
      ((bulkUpsertUnordered c l).1, e0 || (bulkUpsertUnordered c l).2) := by
  induction l generalizing c e0 with
  | nil => simp [bulkUpsertUnordered]
  | cons d rest ih =>
    simp only [bulkUpsertUnordered, List.foldl_cons, Bool.false_or]
    rw [ih ((upsertOne c d).1) (e0 || (upsertOne c d).2),
        ih ((upsertOne c d).1) ((upsertOne c d).2)]
    simp [Bool.or_assoc]

theorem bulkUpsert_cons (c : TColl) (d : Doc) (rest : List Doc) :
    bulkUpsertUnordered c (d :: rest) =
      ((bulkUpsertUnordered (upsertOne c d).1 rest).1,
        (upsertOne c d).2 || (bulkUpsertUnordered (upsertOne c d).1 rest).2) := by
  simp only [bulkUpsertUnordered, List.foldl_cons, Bool.false_or]
  exact upsertFold _ _ _

theorem bulkUpsert_append_fst (c : TColl) (l1 l2 : List Doc) :
    (bulkUpsertUnordered c (l1 ++ l2)).1 =
      (bulkUpsertUnordered (bulkUpsertUnordered c l1).1 l2).1 := by
  simp only [bulkUpsertUnordered, List.foldl_append]
  have h := upsertFold (bulkUpsertUnordered c l1).1 (bulkUpsertUnordered c l1).2 l2
  simp only [bulkUpsertUnordered] at h
  rw [h]

theorem upsertAll_accept (c : TColl) (l : List Doc) :
    (bulkUpsertUnordered c l).1.accept = c.accept := by
  induction l generalizing c with
  | nil => rfl
  | cons d rest ih =>
    rw [bulkUpsert_cons]
    simp only
    rw [ih]
    exact upsertOne_accept c d

theorem upsertAll_err_false (c : TColl) (l : List Doc)
    (hacc : ∀ d ∈ l, c.accept d = true) :
    (bulkUpsertUnordered c l).2 = false := by
  induction l generalizing c with
  | nil => rfl
  | cons d rest ih =>
    rw [bulkUpsert_cons]
    simp only
    rw [upsertOne_err_false c d (hacc d (List.mem_cons_self d rest)), Bool.false_or]
    exact ih (upsertOne c d).1 (fun e he => by
      rw [upsertOne_accept]
      exact hacc e (List.mem_cons_of_mem d he))

theorem upsertAll_find_not_mem (c : TColl) (l : List Doc) (id : Nat)
    (h : id ∉ idsOf l) :
    (bulkUpsertUnordered c l).1.docs.find? (fun e => e._id == id) =
      c.docs.find? (fun e => e._id == id) := by
  induction l generalizing c with
  | nil => rfl
  | cons d rest ih =>
    rw [bulkUpsert_cons]
    simp only
    have h1 : id ∉ idsOf rest := fun hc => h (by simp [idsOf] at hc ⊢; exact Or.inr hc)
    have h2 : id ≠ d._id := fun hc => h (by simp [idsOf, hc])
    rw [ih _ h1, upsertOne_find_other c d id h2]

theorem upsertAll_find_mem (c : TColl) (l : List Doc)
    (hacc : ∀ d ∈ l, c.accept d = true) (hnd : (idsOf l).Nodup) :
    ∀ d ∈ l, (bulkUpsertUnordered c l).1.docs.find? (fun e => e._id == d._id) = some d := by
  induction l generalizing c with
  | nil => intro d hd; simp at hd
  | cons d0 rest ih =>
    intro d hd
    rw [bulkUpsert_cons]
    simp only
    rcases List.mem_cons.mp hd with h | h
    · subst h
      have hid : d._id ∉ idsOf rest := by
        have := hnd
        simp only [idsOf, List.map_cons, List.nodup_cons] at this
        simpa [idsOf] using this.1
      rw [upsertAll_find_not_mem _ _ _ hid]
      exact upsertOne_find_self c d (hacc d (List.mem_cons_self d rest))
    · have hacc2 : ∀ e ∈ rest, (upsertOne c d0).1.accept e = true := by
        intro e he
        rw [upsertOne_accept]
        exact hacc e (List.mem_cons_of_mem d0 he)
      have hnd2 : (idsOf rest).Nodup := by
        have := hnd
        simp only [idsOf, List.map_cons, List.nodup_cons] at this
        simpa [idsOf] using this.2
      exact ih _ hacc2 hnd2 d h

theorem upsertAll_fix (c : TColl) (l : List Doc)
    (hacc : ∀ d ∈ l, c.accept d = true)
    (hfind : ∀ d ∈ l, c.docs.find? (fun e => e._id == d._id) = some d) :
    bulkUpsertUnordered c l = (c, false) := by
  induction l generalizing c with
  | nil => rfl
  | cons d rest ih =>
    have hf := hfind d (List.mem_cons_self d rest)
    have hdup : dupKey c d = true := by
      simp only [dupKey, List.any_eq_true]
      exact ⟨d, List.mem_of_find?_eq_some hf, by simp⟩
    have hstep : upsertOne c d = (c, false) := by
      simp only [upsertOne, hacc d (List.mem_cons_self d rest), if_true, hdup]
      rw [replaceById_of_find_self c.docs d hf]
    rw [bulkUpsert_cons, hstep]
    simp only [Bool.false_or]
    rw [ih c (fun e he => hacc e (List.mem_cons_of_mem d he))
          (fun e he => hfind e (List.mem_cons_of_mem d he))]

theorem upsertOne_ids (c : TColl) (d : Doc) :
    ∀ id ∈ idsOf c.docs, id ∈ idsOf (upsertOne c d).1.docs := by
  intro id hid
  simp only [upsertOne]
  by_cases h1 : c.accept d
  · simp only [h1, if_true]
    by_cases h2 : dupKey c d
    · simpa [h2, idsOf_replaceById] using hid
    · simp only [h2, Bool.false_eq_true, if_false]
      rw [idsOf_append]
      exact List.mem_append_left _ hid
  · simpa [h1] using hid

theorem upsertAll_ids (c : TColl) (l : List Doc) :
    ∀ id ∈ idsOf c.docs, id ∈ idsOf (bulkUpsertUnordered c l).1.docs := by
  induction l generalizing c with
  | nil => intro id hid; exact hid
  | cons d rest ih =>
    intro id hid
    rw [bulkUpsert_cons]
    exact ih _ id (upsertOne_ids c d id hid)

theorem filter_replaceById (docs : List Doc) (d : Doc) (ids : List Nat)
    (hd : d._id ∈ ids) :
    (replaceById docs d).filter (fun e => !(ids.contains e._id)) =
      docs.filter (fun e => !(ids.contains e._id)) := by
  induction docs with
  | nil => rfl
  | cons e rest ih =>
    by_cases hm : (e._id == d._id) = true
    · have heq : e._id = d._id := by simpa using hm
      have hPd : (!(ids.contains d._id)) = false := by
        simpa using hd
      have hPe : (!(ids.contains e._id)) = false := by rw [heq]; exact hPd
      simp only [replaceById, hm, if_true]
      rw [List.filter_cons, List.filter_cons, hPd, hPe]
      simp
    · simp only [Bool.not_eq_true] at hm
      simp only [replaceById, hm, Bool.false_eq_true, if_false]
      rw [List.filter_cons, List.filter_cons]
      by_cases he : (!(ids.contains e._id)) = true
      · simp only [he, if_true, ih]
      · simp only [Bool.not_eq_true] at he
        simp only [he]
        simpa using ih

theorem upsertOne_filter (c : TColl) (d : Doc) (ids : List Nat) (hd : d._id ∈ ids) :
    (upsertOne c d).1.docs.filter (fun e => !(ids.contains e._id)) =
      c.docs.filter (fun e => !(ids.contains e._id)) := by
  simp only [upsertOne]
  by_cases h1 : c.accept d
  · simp only [h1, if_true]
    by_cases h2 : dupKey c d
    · simp only [h2, if_true]
      exact filter_replaceById c.docs d ids hd
    · simp only [h2, Bool.false_eq_true, if_false]
      rw [List.filter_append]
      have : List.filter (fun e => !(ids.contains e._id)) [d] = [] := by
        simpa using hd
      rw [this, List.append_nil]
  · simp [h1]

theorem upsertAll_filter (c : TColl) (l : List Doc) (ids : List Nat)
    (hsub : ∀ d ∈ l, d._id ∈ ids) :
    (bulkUpsertUnordered c l).1.docs.filter (fun e => !(ids.contains e._id)) =
      c.docs.filter (fun e => !(ids.contains e._id)) := by
  induction l generalizing c with
  | nil => rfl
  | cons d rest ih =>
    rw [bulkUpsert_cons]
    simp only
    rw [ih _ (fun e he => hsub e (List.mem_cons_of_mem d he)),
        upsertOne_filter c d ids (hsub d (List.mem_cons_self d rest))]

theorem applyBatches_upsert_ok (tag : List Doc → TOp) (t : TColl) (bs : List (List Doc))
    (hacc : ∀ d ∈ bs.flatten, t.accept d = true) :
    applyBatches bulkUpsertUnordered tag t bs =
      ((bulkUpsertUnordered t bs.flatten).1, bs.map tag, false) := by
  induction bs generalizing t with
  | nil => simp [applyBatches, bulkUpsertUnordered]
  | cons b rest ih =>
    have haccb : ∀ d ∈ b, t.accept d = true := by
      intro d hd
      exact hacc d (by simp only [List.flatten_cons, List.mem_append]; exact Or.inl hd)
    have herr : (bulkUpsertUnordered t b).2 = false := upsertAll_err_false t b haccb
    have haccr : ∀ d ∈ rest.flatten, (bulkUpsertUnordered t b).1.accept d = true := by
      intro d hd
      rw [upsertAll_accept]
      exact hacc d (by simp only [List.flatten_cons, List.mem_append]; exact Or.inr hd)
    have hcomp := bulkUpsert_append_fst t b rest.flatten
    simp only [applyBatches, herr, Bool.false_eq_true, if_false]
    rw [ih _ haccr]
    simp only [List.flatten_cons, List.map_cons]
    rw [hcomp]

/-! ### Branch lemmas for the per-collection loop body -/

/-- A successful probe hands the target back unchanged: the probe insert
succeeded, so no document with the probe's `_id` pre-existed, and the
following delete removes exactly the probe document. -/
theorem schemaProbe_ok_eq (tgt : TColl) (sample : Doc) (t2 : TColl) (pOps : List TOp)
    (h : schemaProbe tgt sample = (.ok t2, pOps)) : t2 = tgt := by
  simp only [schemaProbe] at h
  rcases hins : insertOne tgt { sample with validationTest := true } with e | t3
  · rw [hins] at h
    simp at h
  · rw [hins] at h
    simp only [Prod.mk.injEq, Except.ok.injEq] at h
    have hdup : dupKey tgt { sample with validationTest := true } = false := by
      by_contra hcon
      simp only [insertOne, Bool.not_eq_false] at hins hcon
      rw [hcon] at hins
      simp at hins
    have hacc : tgt.accept { sample with validationTest := true } = true := by
      by_contra hcon
      simp only [insertOne, hdup, Bool.false_eq_true, if_false, Bool.not_eq_true] at hins hcon
      rw [hcon] at hins
      simp at hins
    simp only [insertOne, hdup, Bool.false_eq_true, if_false, hacc, if_true,
      Except.ok.injEq] at hins
    have hddocs : t3.docs = tgt.docs ++ [{ sample with validationTest := true }] := by
      rw [← hins]
    have hnomatch : ∀ e ∈ tgt.docs,
        ¬(e._id == ({ sample with validationTest := true } : Doc)._id) = true := by
      intro e he
      simp only [dupKey, List.any_eq_false] at hdup
      exact hdup e he
    have := h.1
    subst this
    have haccept : t3.accept = tgt.accept := by rw [← hins]
    cases t2eq : t3 with
    | mk docs3 accept3 =>
      rw [t2eq] at hddocs haccept
      simp only at hddocs haccept
      have h5 : List.eraseP
          (fun e => e._id == ({ sample with validationTest := true } : Doc)._id)
          [({ sample with validationTest := true } : Doc)] = [] :=
        List.eraseP_cons_of_pos (by simp)
      simp only [deleteOneById, t2eq, hddocs, haccept]
      rw [List.eraseP_append_right _ hnomatch, h5]
      cases tgt
      simp

theorem processCollection_zero (cfg : Config) (name : String) (src : List Doc)
    (tgt : TColl) (files : List (String × List Doc)) (idxFiles : List String)
    (h : matchedDocs cfg src = []) :
    processCollection cfg name src tgt files idxFiles =
      { res := .ok { name, copied := 0, total := 0,
                     status := if cfg.incremental then "no-new-docs" else "empty" },
        tgt, files, idxFiles, ops := [] } := by
  simp [processCollection, h]

theorem processCollection_noprobe (cfg : Config) (name : String) (src : List Doc)
    (tgt : TColl) (files : List (String × List Doc)) (idxFiles : List String)
    (hv : (cfg.validateSchema && !cfg.dryRun && !cfg.exportJson) = false)
    (hne : matchedDocs cfg src ≠ []) :
    processCollection cfg name src tgt files idxFiles =
      transferStage cfg name (matchedDocs cfg src).length (matchedDocs cfg src)
        tgt files idxFiles := by
  have hlen : (matchedDocs cfg src).length ≠ 0 := by
    simpa [List.length_eq_zero] using hne
  simp only [processCollection, hlen, if_false, hv, Bool.false_eq_true]
  simp

theorem processCollection_probe_fail (cfg : Config) (name : String) (src : List Doc)
    (tgt : TColl) (files : List (String × List Doc)) (idxFiles : List String)
    (e : String) (pOps : List TOp)
    (hv : cfg.validateSchema = true) (hd : cfg.dryRun = false) (hx : cfg.exportJson = false)
    (hne : matchedDocs cfg src ≠ [])
    (hp : schemaProbe tgt ((matchedDocs cfg src).head hne) = (.error e, pOps)) :
    processCollection cfg name src tgt files idxFiles =
      { res := .ok { name, copied := 0, total := (matchedDocs cfg src).length,
                     status := "schema-validation-failed", error := some e },
        tgt, files, idxFiles, ops := pOps } := by
  have hlen : (matchedDocs cfg src).length ≠ 0 := by
    simpa [List.length_eq_zero] using hne
  simp only [processCollection, hlen, if_false, hv, hd, hx, Bool.not_false, Bool.and_self,
    Bool.true_and, Bool.and_true, if_true, List.head?_eq_head hne, hp]

theorem processCollection_probe_ok (cfg : Config) (name : String) (src : List Doc)
    (tgt : TColl) (files : List (String × List Doc)) (idxFiles : List String)
    (t2 : TColl) (pOps : List TOp)
    (hv : cfg.validateSchema = true) (hd : cfg.dryRun = false) (hx : cfg.exportJson = false)
    (hne : matchedDocs cfg src ≠ [])
    (hp : schemaProbe tgt ((matchedDocs cfg src).head hne) = (.ok t2, pOps)) :
    processCollection cfg name src tgt files idxFiles =
      (let out := transferStage cfg name (matchedDocs cfg src).length (matchedDocs cfg src)
        tgt files idxFiles
       { out with ops := pOps ++ out.ops }) := by
  have hlen : (matchedDocs cfg src).length ≠ 0 := by
    simpa [List.length_eq_zero] using hne
  have heq : t2 = tgt := schemaProbe_ok_eq tgt _ t2 pOps hp
  subst heq
  simp only [processCollection, hlen, if_false, hv, hd, hx, Bool.not_false, Bool.and_self,
    Bool.true_and, Bool.and_true, if_true, List.head?_eq_head hne, hp]

theorem matchesQuery_not_incremental (s : Option Nat) (d : Doc) :
    matchesQuery false s d = true := by
  cases s <;> rfl

theorem matchedDocs_not_incremental (cfg : Config) (src : List Doc)
    (h : cfg.incremental = false) : matchedDocs cfg src = src := by
  simp [matchedDocs, h, matchesQuery_not_incremental]

theorem transferStage_dry (cfg : Config) (name : String) (total : Nat)
    (matched : List Doc) (t0 : TColl) (files : List (String × List Doc))
    (idxFiles : List String) (hd : cfg.dryRun = true) :
    transferStage cfg name total matched t0 files idxFiles =
      { res := .ok { name, copied := 0, total, status := "dry-run" },
        tgt := t0, files, idxFiles, ops := [] } := by
  simp [transferStage, hd]

theorem transferStage_import_missing (cfg : Config) (name : String) (total : Nat)
    (matched : List Doc) (t0 : TColl) (files : List (String × List Doc))
    (idxFiles : List String) (hd : cfg.dryRun = false) (hi : cfg.importJson = true)
    (hf : files.find? (fun p => p.1 == name) = none) :
    transferStage cfg name total matched t0 files idxFiles =
      { res := .ok { name, copied := 0, total := 0, status := "no-json-file" },
        tgt := t0, files, idxFiles, ops := [] } := by
  simp [transferStage, hd, hi, hf]

theorem transferStage_import_empty (cfg : Config) (name : String) (total : Nat)
    (matched : List Doc) (t0 : TColl) (files : List (String × List Doc))
    (idxFiles : List String) (hd : cfg.dryRun = false) (hi : cfg.importJson = true)
    (hf : (files.find? (fun p => p.1 == name)).map Prod.snd = some []) :
    transferStage cfg name total matched t0 files idxFiles =
      { res := .ok { name, copied := 0, total := 0, status := "json-empty" },
        tgt := t0, files, idxFiles, ops := [] } := by
  simp [transferStage, hd, hi, hf]

theorem transferStage_export (cfg : Config) (name : String) (total : Nat)
    (matched : List Doc) (t0 : TColl) (files : List (String × List Doc))
    (idxFiles : List String) (hd : cfg.dryRun = false) (hi : cfg.importJson = false)
    (hx : cfg.exportJson = true) :
    transferStage cfg name total matched t0 files idxFiles =
      { res := .ok { name, copied := matched.length, total, status := "exported-json" },
        tgt := t0,
        files := (files.filter (fun p => p.1 != name)) ++ [(name, matched)],
        idxFiles := if cfg.copyIndexes && !idxFiles.contains name
                    then idxFiles ++ [name] else idxFiles,
        ops := [] } := by
  simp [transferStage, hd, hi, hx]

theorem transferStage_full (cfg : Config) (name : String) (total : Nat) (b : Nat)
    (matched : List Doc) (t0 : TColl) (files : List (String × List Doc))
    (idxFiles : List String)
    (hd : cfg.dryRun = false) (hi : cfg.importJson = false) (hx : cfg.exportJson = false)
    (hinc : cfg.incremental = false) (hb : cfg.batchSize = b + 1)
    (hacc : ∀ d ∈ matched, t0.accept d = true)
    (hnd : (idsOf matched).Nodup) :
    transferStage cfg name total matched t0 files idxFiles =
      { res := .ok { name, copied := matched.length, total, status := "copied" },
        tgt := { t0 with docs := matched }, files, idxFiles,
        ops := [TOp.deleteAll] ++ (chunks cfg.batchSize matched).map TOp.insertBatch
               ++ (if cfg.copyIndexes then [TOp.createIdx] else []) } := by
  have hflat : (chunks cfg.batchSize matched).flatten = matched := by
    rw [hb]; exact chunks_flatten b matched
  have hstep := applyBatches_insert_ok TOp.insertBatch ({ t0 with docs := [] })
    (chunks cfg.batchSize matched)
    (by intro bb hbb d hdd; exact hacc d (by rw [← hflat]; exact List.mem_flatten.mpr ⟨bb, hbb, hdd⟩))
    (by rw [hflat]; exact hnd)
    (by intro d hd2; simp [idsOf])
  have hcc : copiedCount (chunks cfg.batchSize matched) = matched.length := by
    rw [copiedCount_eq, hflat]
  simp only [transferStage, hd, hi, hx, hinc, Bool.false_eq_true, if_false, hstep, hflat,
    List.nil_append, hcc]

theorem transferStage_incr (cfg : Config) (name : String) (total : Nat) (b : Nat)
    (matched : List Doc) (t0 : TColl) (files : List (String × List Doc))
    (idxFiles : List String)
    (hd : cfg.dryRun = false) (hi : cfg.importJson = false) (hx : cfg.exportJson = false)
    (hinc : cfg.incremental = true) (hb : cfg.batchSize = b + 1)
    (hacc : ∀ d ∈ matched, t0.accept d = true) :
    transferStage cfg name total matched t0 files idxFiles =
      { res := .ok { name, copied := matched.length, total, status := "incremental-copied" },
        tgt := (bulkUpsertUnordered t0 matched).1, files, idxFiles,
        ops := (chunks cfg.batchSize matched).map TOp.upsertBatch
               ++ (if cfg.copyIndexes then [TOp.createIdx] else []) } := by
  have hflat : (chunks cfg.batchSize matched).flatten = matched := by
    rw [hb]; exact chunks_flatten b matched
  have hstep := applyBatches_upsert_ok TOp.upsertBatch t0 (chunks cfg.batchSize matched)
    (by rw [hflat]; exact hacc)
  rw [hflat] at hstep
  have hcc : copiedCount (chunks cfg.batchSize matched) = matched.length := by
    rw [copiedCount_eq, hflat]
  simp only [transferStage, hd, hi, hx, hinc, Bool.false_eq_true, if_false, if_true, hstep, hcc]

/-! ### The loop records one result per attempted collection -/

theorem transferStage_name (cfg : Config) (name : String) (total : Nat)
    (matched : List Doc) (t0 : TColl) (files : List (String × List Doc))
    (idxFiles : List String) (r : CollResult)
    (h : (transferStage cfg name total matched t0 files idxFiles).res = .ok r) :
    r.name = name := by
  unfold transferStage at h
  repeat' (first | split at h | simp only [apply_ite StepOut.res] at h)
  all_goals (try simp only [Except.ok.injEq] at h)
  all_goals first
    | (subst h; rfl)
    | exact absurd h (by simp)

theorem processCollection_name (cfg : Config) (name : String) (src : List Doc)
    (tgt : TColl) (files : List (String × List Doc)) (idxFiles : List String)
    (r : CollResult)
    (h : (processCollection cfg name src tgt files idxFiles).res = .ok r) :
    r.name = name := by
  unfold processCollection at h
  repeat' (first | split at h | simp only [apply_ite StepOut.res] at h)
  all_goals (try simp only [Except.ok.injEq] at h)
  all_goals first
    | (subst h; rfl)
    | exact absurd h (by simp)
    | exact transferStage_name cfg name _ _ _ files idxFiles r h

theorem runLoop_names (cfg : Config) (names : List String) (w : World)
    (rs : List CollResult) (h : (runLoop cfg names w).1 = .ok rs) :
    rs.map CollResult.name = names := by
  induction names generalizing w rs with
  | nil =>
    simp only [runLoop, Except.ok.injEq] at h
    subst h
    rfl
  | cons n rest ih =>
    simp only [runLoop] at h
    rcases hres : (processCollection cfg n
      (match w.src.find? (fun p => p.1 == n) with
       | some p => p.2
       | none => []) (getTgt w.tgt n) w.files w.idxFiles).res with e | r
    · simp only [hres] at h
      exact absurd h (by simp)
    · simp only [hres] at h
      rcases hrec : runLoop cfg rest
        { w with
          tgt := setTgt w.tgt n (processCollection cfg n
            (match w.src.find? (fun p => p.1 == n) with
             | some p => p.2
             | none => []) (getTgt w.tgt n) w.files w.idxFiles).tgt,
          files := (processCollection cfg n
            (match w.src.find? (fun p => p.1 == n) with
             | some p => p.2
             | none => []) (getTgt w.tgt n) w.files w.idxFiles).files,
          idxFiles := (processCollection cfg n
            (match w.src.find? (fun p => p.1 == n) with
             | some p => p.2
             | none => []) (getTgt w.tgt n) w.files w.idxFiles).idxFiles } with ⟨res2, w3, ts⟩
      rw [hrec] at h
      rcases res2 with e2 | rs2
      · simp at h
      · simp only [Except.ok.injEq] at h
        subst h
        have hname := processCollection_name cfg n _ _ _ _ r hres
        have htail := ih _ rs2 (by rw [hrec])
        simp [hname, htail]
/-! ### Target-database map lemmas and run-level reductions -/

theorem find?_filter_ne (tgts : List (String × TColl)) (n m : String) (hne : m ≠ n) :
    (tgts.filter (fun p => p.1 != n)).find? (fun p => p.1 == m) =
      tgts.find? (fun p => p.1 == m) := by
  induction tgts with
  | nil => rfl
  | cons p rest ih =>
    by_cases hp : (p.1 != n) = true
    · rw [List.filter_cons, if_pos hp, List.find?_cons, List.find?_cons]
      by_cases hm : (p.1 == m) = true
      · simp only [hm]
      · simp only [Bool.not_eq_true] at hm
        simp only [hm]
        exact ih
    · have hp2 : (p.1 != n) = false := by simpa using hp
      have hpn : p.1 = n := by simpa using hp2
      rw [List.filter_cons, hp2]
      simp only [Bool.false_eq_true, if_false]
      rw [List.find?_cons]
      have hm : (p.1 == m) = false := by
        simp only [beq_eq_false_iff_ne, ne_eq, hpn]
        exact fun hc => hne hc.symm
      simp only [hm]
      exact ih

theorem getTgt_setTgt_same (tgts : List (String × TColl)) (n : String) (c : TColl) :
    getTgt (setTgt tgts n c) n = c := by
  simp only [getTgt, setTgt, List.find?_append]
  have h1 : (tgts.filter (fun p => p.1 != n)).find? (fun p => p.1 == n) = none := by
    rw [List.find?_eq_none]
    intro p hp
    have := (List.mem_filter.mp hp).2
    simp only [bne_iff_ne, ne_eq] at this
    simp [this]
  rw [h1, Option.none_or]
  simp [List.find?_cons]

theorem getTgt_setTgt_other (tgts : List (String × TColl)) (n m : String) (c : TColl)
    (hne : m ≠ n) :
    getTgt (setTgt tgts n c) m = getTgt tgts m := by
  simp only [getTgt, setTgt, List.find?_append]
  rw [find?_filter_ne tgts n m hne]
  have h2 : List.find? (fun p => p.1 == m) [(n, c)] = none := by
    have : ((n, c).1 == m) = false := by
      simp only [beq_eq_false_iff_ne, ne_eq]
      exact fun hc => hne hc.symm
    simp [List.find?_cons, this]
  rw [h2, Option.or_none]

/-- Under `dryRun`, one collection's processing is a pure report: status
`dry-run` when anything matched, the zero-total status otherwise, and no
effect on the target or the artifact directory. -/
theorem processCollection_dry (cfg : Config) (name : String) (src : List Doc)
    (tgt : TColl) (files : List (String × List Doc)) (idxFiles : List String)
    (hd : cfg.dryRun = true) :
    processCollection cfg name src tgt files idxFiles =
      { res := .ok { name, copied := 0, total := (matchedDocs cfg src).length,
                     status := if (matchedDocs cfg src).length = 0
                               then (if cfg.incremental then "no-new-docs" else "empty")
                               else "dry-run" },
        tgt := tgt, files := files, idxFiles := idxFiles, ops := [] } := by
  by_cases hm : matchedDocs cfg src = []
  · rw [processCollection_zero cfg name src tgt files idxFiles hm]
    simp [hm]
  · have hv : (cfg.validateSchema && !cfg.dryRun && !cfg.exportJson) = false := by
      simp [hd]
    rw [processCollection_noprobe cfg name src tgt files idxFiles hv hm,
        transferStage_dry cfg name _ _ tgt files idxFiles hd]
    have hlen : (matchedDocs cfg src).length ≠ 0 := by
      simpa [List.length_eq_zero] using hm
    simp [hlen]

theorem copyCollections_connected (cfg : Config) (w : World) :
    copyCollections cfg w true true =
      { res := (runLoop cfg (resolveCollections cfg.collections (w.src.map Prod.fst)) w).1,
        world := (runLoop cfg (resolveCollections cfg.collections (w.src.map Prod.fst)) w).2.1,
        events := [Ev.connectSource, Ev.connectTarget, Ev.closeSource, Ev.closeTarget],
        traces := (runLoop cfg (resolveCollections cfg.collections (w.src.map Prod.fst)) w).2.2 } := by
  simp [copyCollections]

theorem copyCollections_ok_names (cfg : Config) (w : World) (rs : List CollResult)
    (h : (copyCollections cfg w true true).res = .ok rs) :
    rs.map CollResult.name = resolveCollections cfg.collections (w.src.map Prod.fst) := by
  rw [copyCollections_connected] at h
  exact runLoop_names cfg _ w rs h

/-- Under `dryRun` the whole loop leaves every target collection unchanged. -/
theorem runLoop_dry_tgt (cfg : Config) (names : List String) (w : World) (m : String)
    (hd : cfg.dryRun = true) :
    getTgt ((runLoop cfg names w).2.1.tgt) m = getTgt w.tgt m := by
  induction names generalizing w with
  | nil => rfl
  | cons n rest ih =>
    simp only [runLoop]
    rw [processCollection_dry cfg n _ (getTgt w.tgt n) w.files w.idxFiles hd]
    simp only
    have hset : ∀ m2, getTgt (setTgt w.tgt n (getTgt w.tgt n)) m2 = getTgt w.tgt m2 := by
      intro m2
      by_cases hm2 : m2 = n
      · subst hm2
        exact getTgt_setTgt_same w.tgt m2 (getTgt w.tgt m2)
      · exact getTgt_setTgt_other w.tgt n m2 _ hm2
    rcases hrec : runLoop cfg rest
      { w with tgt := setTgt w.tgt n (getTgt w.tgt n), files := w.files,
               idxFiles := w.idxFiles } with ⟨res2, w3, ts⟩
    have hw3 : getTgt w3.tgt m = getTgt w.tgt m := by
      have := ih { w with tgt := setTgt w.tgt n (getTgt w.tgt n), files := w.files,
                          idxFiles := w.idxFiles }
      rw [hrec] at this
      simp only at this
      rw [this]
      exact hset m
    rcases res2 with e2 | rs2
    · simpa using hw3
    · simpa using hw3

/-! ### Claim theorems -/

/-- C5: for every batch size `b ≥ 1` and every cursor output, the
full-replace transfer issues one delete followed by exactly
`ceil(n / b)` insert batches, each of size `b` except possibly the last
(which is non-empty), whose concatenation in order is exactly the
cursor's output — no document skipped or duplicated. -/
theorem claim_C5_batching (cfg : Config) (name : String) (total : Nat) (b : Nat)
    (matched : List Doc) (t0 : TColl) (files : List (String × List Doc))
    (idxFiles : List String)
    (hd : cfg.dryRun = false) (hi : cfg.importJson = false) (hx : cfg.exportJson = false)
    (hinc : cfg.incremental = false) (hb : cfg.batchSize = b + 1)
    (hacc : ∀ d ∈ matched, t0.accept d = true)
    (hnd : (idsOf matched).Nodup) :
    (transferStage cfg name total matched t0 files idxFiles).ops =
      [TOp.deleteAll] ++ (chunks cfg.batchSize matched).map TOp.insertBatch
        ++ (if cfg.copyIndexes then [TOp.createIdx] else []) ∧
    (chunks cfg.batchSize matched).length =
      (matched.length + cfg.batchSize - 1) / cfg.batchSize ∧
    (chunks cfg.batchSize matched).flatten = matched ∧
    (∀ c ∈ (chunks cfg.batchSize matched).dropLast, c.length = cfg.batchSize) ∧
    (∀ c ∈ chunks cfg.batchSize matched, 1 ≤ c.length ∧ c.length ≤ cfg.batchSize) := by
  refine ⟨?_, ?_, ?_, ?_, ?_⟩
  · rw [transferStage_full cfg name total b matched t0 files idxFiles hd hi hx hinc hb hacc hnd]
  · rw [hb, chunks_length]
    have h9 : matched.length + (b + 1) - 1 = matched.length + b := by omega
    rw [h9]
  · rw [hb]
    exact chunks_flatten b matched
  · rw [hb]
    exact chunks_dropLast_size b matched
  · rw [hb]
    exact chunks_size b matched

/-- C5 witness: three documents with batch size 2 give two batches of
sizes 2 and 1 covering the cursor output in order. -/
theorem claim_C5_batching_witness :
    (∀ d ∈ [docA, docB, docC], TColl.fresh.accept d = true) ∧
    (transferStage { batchSize := 2 } "users" 3 [docA, docB, docC] TColl.fresh [] []).ops =
      [TOp.deleteAll] ++ (chunks 2 [docA, docB, docC]).map TOp.insertBatch ++ [] ∧
    (chunks 2 [docA, docB, docC]).length = 2 ∧
    (chunks 2 [docA, docB, docC]).flatten = [docA, docB, docC] := by
  have h := claim_C5_batching { batchSize := 2 } "users" 3 1 [docA, docB, docC]
    TColl.fresh [] [] rfl rfl rfl rfl rfl (by decide) (by decide)
  exact ⟨by decide, by simpa using h.1, by simpa using h.2.1, h.2.2.1⟩

/-- C6: a collection whose predicate-matched count is zero is recorded
with status `empty` (`no-new-docs` when incremental), `copied = 0`, and
no operation of any kind is attempted against the target: the target
collection, the artifact directory and the operation trace are all left
untouched. -/
theorem claim_C6_zero_total (cfg : Config) (name : String) (src : List Doc)
    (tgt : TColl) (files : List (String × List Doc)) (idxFiles : List String)
    (h : matchedDocs cfg src = []) :
    processCollection cfg name src tgt files idxFiles =
      { res := .ok { name, copied := 0, total := 0,
                     status := if cfg.incremental then "no-new-docs" else "empty" },
        tgt, files, idxFiles, ops := [] } :=
  processCollection_zero cfg name src tgt files idxFiles h

/-- C6 witness: an empty source collection under a plain full copy and
under an incremental copy. -/
theorem claim_C6_zero_total_witness :
    matchedDocs {} [] = [] ∧
    processCollection {} "empty" [] tWithOld [] [] =
      { res := .ok { name := "empty", copied := 0, total := 0, status := "empty" },
        tgt := tWithOld, files := [], idxFiles := [], ops := [] } ∧
    processCollection { incremental := true, since := some 5 } "empty" [] tWithOld [] [] =
      { res := .ok { name := "empty", copied := 0, total := 0, status := "no-new-docs" },
        tgt := tWithOld, files := [], idxFiles := [], ops := [] } := by
  refine ⟨rfl, ?_, ?_⟩
  · have h := claim_C6_zero_total {} "empty" [] tWithOld [] [] rfl
    simpa using h
  · have h := claim_C6_zero_total { incremental := true, since := some 5 }
      "empty" [] tWithOld [] [] rfl
    simpa using h

/-- C9 counterexample: requesting `["b", "a"]` against a source listing
`["a", "b", "c"]` resolves to `["b", "a"]` — the requested order, not the
source's natural listing order `["a", "b"]` — and the run processes the
collections in that requested order. -/
theorem claim_C9_counterexample :
    resolveCollections ["b", "a"] ["a", "b", "c"] = ["b", "a"] ∧
    (["b", "a"] : List String) ≠ ["a", "b"] ∧
    (copyCollections { collections := ["b", "a"] } wTwo true true).res =
      .ok [{ name := "b", copied := 1, total := 1, status := "copied" },
           { name := "a", copied := 1, total := 1, status := "copied" }] := by
  refine ⟨rfl, by decide, rfl⟩

/-- C9 amended: the resolved sequence is all source collections when none
are requested; otherwise it is the requested list filtered to the names
existing on the source, in the requested list's own order (a sublist of
the request), and the run's result sequence follows it. -/
theorem claim_C9_resolution (requested allNames : List String) :
    (requested = [] → resolveCollections requested allNames = allNames) ∧
    (requested ≠ [] →
      List.Sublist (resolveCollections requested allNames) requested ∧
      ∀ x, x ∈ resolveCollections requested allNames ↔ x ∈ requested ∧ x ∈ allNames) ∧
    (∀ cfg w rs, cfg.collections = requested → w.src.map Prod.fst = allNames →
      (copyCollections cfg w true true).res = .ok rs →
      rs.map CollResult.name = resolveCollections requested allNames) := by
  refine ⟨?_, ?_, ?_⟩
  · intro h
    simp [resolveCollections, h]
  · intro h
    constructor
    · simp only [resolveCollections, List.isEmpty_eq_true, h, if_false]
      exact List.filter_sublist requested
    · intro x
      simp only [resolveCollections, List.isEmpty_eq_true, h, if_false]
      simp [List.mem_filter]
  · intro cfg w rs hc hs hres
    rw [← hc, ← hs]
    exact copyCollections_ok_names cfg w rs hres

/-- C9 witness: resolution with and without a requested set, and the run
result order on a concrete world. -/
theorem claim_C9_resolution_witness :
    resolveCollections [] ["a", "b"] = ["a", "b"] ∧
    (List.Sublist (resolveCollections ["b", "a"] ["a", "b"]) ["b", "a"] ∧
      ∀ x, x ∈ resolveCollections ["b", "a"] ["a", "b"] ↔
        x ∈ ["b", "a"] ∧ x ∈ ["a", "b"]) ∧
    List.map CollResult.name
      [{ name := "b", copied := 1, total := 1, status := "copied" },
       { name := "a", copied := 1, total := 1, status := "copied" }] =
      resolveCollections ["b", "a"] ["a", "b"] := by
  refine ⟨(claim_C9_resolution [] ["a", "b"]).1 rfl,
          (claim_C9_resolution ["b", "a"] ["a", "b"]).2.1 (by decide),
          (claim_C9_resolution ["b", "a"] ["a", "b"]).2.2
            { collections := ["b", "a"] } wTwo _ rfl rfl rfl⟩

/-- C4 counterexample: a target-connect failure raises before the
`try`/`finally` region (the `connect()` calls are outside it), so the
error is surfaced with no results but neither connection is closed —
contradicting the claim that both connections are still closed. -/
theorem claim_C4_counterexample :
    (copyCollections {} wTwo true false).res = Except.error "target connect failed" ∧
    (copyCollections {} wTwo true false).events = [Ev.connectSource, Ev.connectTarget] ∧
    Ev.closeSource ∉ (copyCollections {} wTwo true false).events ∧
    Ev.closeTarget ∉ (copyCollections {} wTwo true false).events := by
  refine ⟨rfl, rfl, by decide, by decide⟩

/-- C4 amended: once both connections are established, each is closed
exactly once in the cleanup region, whether the loop returns its summary
or raises; a connect failure surfaces the error with no results, but the
connections opened so far are not closed (the close happens only when the
`try` region was entered). -/
theorem claim_C4_cleanup (cfg : Config) (w : World) :
    (copyCollections cfg w true true).events =
      [Ev.connectSource, Ev.connectTarget, Ev.closeSource, Ev.closeTarget] ∧
    ((copyCollections cfg w true true).events.count Ev.closeSource = 1 ∧
      (copyCollections cfg w true true).events.count Ev.closeTarget = 1) ∧
    (∀ b, (copyCollections cfg w false b).res = Except.error "source connect failed" ∧
      (copyCollections cfg w false b).events = [Ev.connectSource] ∧
      Ev.closeSource ∉ (copyCollections cfg w false b).events ∧
      Ev.closeTarget ∉ (copyCollections cfg w false b).events) ∧
    ((copyCollections cfg w true false).res = Except.error "target connect failed" ∧
      Ev.closeSource ∉ (copyCollections cfg w true false).events ∧
      Ev.closeTarget ∉ (copyCollections cfg w true false).events) := by
  refine ⟨?_, ⟨?_, ?_⟩, ?_, ?_, ?_, ?_⟩ <;>
    simp [copyCollections]

/-- C7 counterexample: in a dry run, a selected collection with zero
matched documents is recorded with status `empty`, not `dry-run`, so not
every collection's result carries the `dry-run` status. -/
theorem claim_C7_counterexample :
    (copyCollections { dryRun := true } wEmptySrc true true).res =
      .ok [{ name := "empty", copied := 0, total := 0, status := "empty" }] ∧
    ("empty" : String) ≠ "dry-run" := by
  refine ⟨rfl, by decide⟩

/-- C7 amended: with `dryRun` every collection's processing leaves the
target, the artifact directory and the operation trace untouched and
reports the correct predicate-matched total with `copied = 0`; the status
is `dry-run` for collections with at least one matched document and the
zero-total status (`empty` / `no-new-docs`) otherwise.  Consequently the
whole run leaves every target collection unchanged. -/
theorem claim_C7_dry_run (cfg : Config) (hd : cfg.dryRun = true) :
    (∀ name src tgt files idxFiles,
      processCollection cfg name src tgt files idxFiles =
        { res := .ok { name, copied := 0, total := (matchedDocs cfg src).length,
                       status := if (matchedDocs cfg src).length = 0
                                 then (if cfg.incremental then "no-new-docs" else "empty")
                                 else "dry-run" },
          tgt := tgt, files := files, idxFiles := idxFiles, ops := [] }) ∧
    (∀ w m, getTgt ((copyCollections cfg w true true).world.tgt) m = getTgt w.tgt m) := by
  constructor
  · intro name src tgt files idxFiles
    exact processCollection_dry cfg name src tgt files idxFiles hd
  · intro w m
    rw [copyCollections_connected]
    exact runLoop_dry_tgt cfg _ w m hd

/-- C7 witness: a dry run over a non-empty collection reports
`dry-run` with the right total and leaves the target database state
unchanged. -/
theorem claim_C7_dry_run_witness :
    processCollection { dryRun := true } "users" [docA] tWithOld [] [] =
      { res := .ok { name := "users", copied := 0,
                     total := (matchedDocs { dryRun := true } [docA]).length,
                     status := if (matchedDocs { dryRun := true } [docA]).length = 0
                               then (if ({ dryRun := true } : Config).incremental
                                     then "no-new-docs" else "empty")
                               else "dry-run" },
        tgt := tWithOld, files := [], idxFiles := [], ops := [] } ∧
    getTgt ((copyCollections { dryRun := true } wTwo true true).world.tgt) "a" =
      getTgt wTwo.tgt "a" :=
  ⟨(claim_C7_dry_run { dryRun := true } rfl).1 "users" [docA] tWithOld [] [],
   (claim_C7_dry_run { dryRun := true } rfl).2 wTwo "a"⟩

/-- C8 counterexample: in import mode the missing-artifact and
empty-artifact statuses recorded by the code are `no-json-file` and
`json-empty`, not the claimed `no-source-file` and `source-empty`. -/
theorem claim_C8_counterexample :
    (copyCollections { importJson := true } wImportMissing true true).res =
      .ok [{ name := "c", copied := 0, total := 0, status := "no-json-file" }] ∧
    (copyCollections { importJson := true } wImportEmpty true true).res =
      .ok [{ name := "c", copied := 0, total := 0, status := "json-empty" }] ∧
    ("no-json-file" : String) ≠ "no-source-file" ∧
    ("json-empty" : String) ≠ "source-empty" := by
  refine ⟨rfl, rfl, by decide, by decide⟩

/-- C8 amended: in import mode, a collection that reaches the import
branch (non-zero source count, not a dry run, no schema probing) records
`no-json-file` when its data artifact is missing and `json-empty` when
the artifact is an empty array, and in both cases nothing at all is done
to the target collection. -/
theorem claim_C8_import_artifacts (cfg : Config) (name : String) (src : List Doc)
    (tgt : TColl) (files : List (String × List Doc)) (idxFiles : List String)
    (hd : cfg.dryRun = false) (hi : cfg.importJson = true)
    (hv : cfg.validateSchema = false) (hne : matchedDocs cfg src ≠ []) :
    (files.find? (fun p => p.1 == name) = none →
      processCollection cfg name src tgt files idxFiles =
        { res := .ok { name, copied := 0, total := 0, status := "no-json-file" },
          tgt := tgt, files := files, idxFiles := idxFiles, ops := [] }) ∧
    ((files.find? (fun p => p.1 == name)).map Prod.snd = some [] →
      processCollection cfg name src tgt files idxFiles =
        { res := .ok { name, copied := 0, total := 0, status := "json-empty" },
          tgt := tgt, files := files, idxFiles := idxFiles, ops := [] }) := by
  have hnp : (cfg.validateSchema && !cfg.dryRun && !cfg.exportJson) = false := by
    simp [hv]
  constructor
  · intro hf
    rw [processCollection_noprobe cfg name src tgt files idxFiles hnp hne,
        transferStage_import_missing cfg name _ _ tgt files idxFiles hd hi hf]
  · intro hf
    rw [processCollection_noprobe cfg name src tgt files idxFiles hnp hne,
        transferStage_import_empty cfg name _ _ tgt files idxFiles hd hi hf]

/-- C8 witness: a missing artifact and an empty artifact on two concrete
import-mode runs. -/
theorem claim_C8_import_artifacts_witness :
    processCollection { importJson := true } "c" [docA] tWithOld [] [] =
      { res := .ok { name := "c", copied := 0, total := 0, status := "no-json-file" },
        tgt := tWithOld, files := [], idxFiles := [], ops := [] } ∧
    processCollection { importJson := true } "c" [docA] tWithOld [("c", [])] [] =
      { res := .ok { name := "c", copied := 0, total := 0, status := "json-empty" },
        tgt := tWithOld, files := [("c", [])], idxFiles := [], ops := [] } :=
  ⟨(claim_C8_import_artifacts { importJson := true } "c" [docA] tWithOld [] []
      rfl rfl rfl (by decide)).1 rfl,
   (claim_C8_import_artifacts { importJson := true } "c" [docA] tWithOld [("c", [])] []
      rfl rfl rfl (by decide)).2 rfl⟩

/-- C2: in a non-incremental (full-replace) run, when a collection's
transfer completes (its result has status `copied`), the target
collection's document list equals exactly the predicate-matched source
list — in particular every pre-existing target document is gone,
whatever the target contained before — and the result reports
`copied = total = n`. -/
theorem claim_C2_full_replace (cfg : Config) (name : String) (src : List Doc)
    (tgt : TColl) (files : List (String × List Doc)) (idxFiles : List String)
    (b : Nat) (r : CollResult)
    (hinc : cfg.incremental = false) (hd : cfg.dryRun = false)
    (hx : cfg.exportJson = false) (hi : cfg.importJson = false)
    (hb : cfg.batchSize = b + 1)
    (hacc : ∀ d ∈ src, tgt.accept d = true)
    (hnd : (idsOf src).Nodup)
    (hres : (processCollection cfg name src tgt files idxFiles).res = .ok r)
    (hst : r.status = "copied") :
    (processCollection cfg name src tgt files idxFiles).tgt.docs = src ∧
    r = { name := name, copied := src.length, total := src.length, status := "copied" } := by
  have hms : matchedDocs cfg src = src := matchedDocs_not_incremental cfg src hinc
  by_cases hsrc : src = []
  · subst hsrc
    rw [processCollection_zero cfg name [] tgt files idxFiles (by simp [hms])] at hres
    simp only [Except.ok.injEq] at hres
    subst hres
    simp [hinc] at hst
  · have hne : matchedDocs cfg src ≠ [] := by rw [hms]; exact hsrc
    have htf := transferStage_full cfg name (matchedDocs cfg src).length b
      (matchedDocs cfg src) tgt files idxFiles hd hi hx hinc hb
      (by rw [hms]; exact hacc) (by rw [hms]; exact hnd)
    by_cases hv : cfg.validateSchema = true
    · rcases hp : schemaProbe tgt ((matchedDocs cfg src).head hne) with ⟨pres, pOps⟩
      rcases pres with e | t2
      · rw [processCollection_probe_fail cfg name src tgt files idxFiles e pOps
          hv hd hx hne hp] at hres
        simp only [Except.ok.injEq] at hres
        subst hres
        simp at hst
      · have heq := processCollection_probe_ok cfg name src tgt files idxFiles t2 pOps
          hv hd hx hne hp
        rw [heq, htf] at hres
        rw [heq, htf]
        simp only [Except.ok.injEq] at hres
        subst hres
        exact ⟨by simp [hms], by simp [hms]⟩
    · have hv2 : cfg.validateSchema = false := by simpa using hv
      have hnp : (cfg.validateSchema && !cfg.dryRun && !cfg.exportJson) = false := by
        simp [hv2]
      rw [processCollection_noprobe cfg name src tgt files idxFiles hnp hne, htf] at hres
      rw [processCollection_noprobe cfg name src tgt files idxFiles hnp hne, htf]
      simp only [Except.ok.injEq] at hres
      subst hres
      exact ⟨by simp [hms], by simp [hms]⟩

/-- C2 witness: three source documents, batch size 2, a non-empty prior
target: after the transfer the target is exactly the source list. -/
theorem claim_C2_full_replace_witness :
    (processCollection { batchSize := 2 } "users" [docA, docB, docC] tWithOld [] []).tgt.docs =
      [docA, docB, docC] ∧
    ({ name := "users", copied := 3, total := 3, status := "copied" } : CollResult) =
      { name := "users", copied := [docA, docB, docC].length,
        total := [docA, docB, docC].length, status := "copied" } := by
  have h := claim_C2_full_replace { batchSize := 2 } "users" [docA, docB, docC]
    tWithOld [] [] 1 { name := "users", copied := 3, total := 3, status := "copied" }
    rfl rfl rfl rfl rfl (by decide) (by decide) (by rfl) rfl
  exact ⟨h.1, h.2⟩

/-- C3: in an incremental run, the upsert strategy never removes any
target document's identity; the documents whose identity is outside the
predicate-matched set are left byte-for-byte unchanged; and running the
same sync a second time on the unchanged source leaves both the target
state and the reported result identical (idempotence). -/
theorem claim_C3_incremental (cfg : Config) (name : String) (src : List Doc)
    (tgt : TColl) (files : List (String × List Doc)) (idxFiles : List String) (b : Nat)
    (hinc : cfg.incremental = true) (hd : cfg.dryRun = false)
    (hx : cfg.exportJson = false) (hi : cfg.importJson = false)
    (hv : cfg.validateSchema = false) (hb : cfg.batchSize = b + 1)
    (hacc : ∀ d ∈ matchedDocs cfg src, tgt.accept d = true)
    (hnd : (idsOf (matchedDocs cfg src)).Nodup) :
    (∀ id ∈ idsOf tgt.docs,
      id ∈ idsOf (processCollection cfg name src tgt files idxFiles).tgt.docs) ∧
    (processCollection cfg name src
        (processCollection cfg name src tgt files idxFiles).tgt
        (processCollection cfg name src tgt files idxFiles).files
        (processCollection cfg name src tgt files idxFiles).idxFiles).tgt =
      (processCollection cfg name src tgt files idxFiles).tgt ∧
    (processCollection cfg name src
        (processCollection cfg name src tgt files idxFiles).tgt
        (processCollection cfg name src tgt files idxFiles).files
        (processCollection cfg name src tgt files idxFiles).idxFiles).res =
      (processCollection cfg name src tgt files idxFiles).res ∧
    (processCollection cfg name src tgt files idxFiles).tgt.docs.filter
        (fun e => !((idsOf (matchedDocs cfg src)).contains e._id)) =
      tgt.docs.filter (fun e => !((idsOf (matchedDocs cfg src)).contains e._id)) := by
  have hnp : (cfg.validateSchema && !cfg.dryRun && !cfg.exportJson) = false := by
    simp [hv]
  by_cases hm : matchedDocs cfg src = []
  · rw [processCollection_zero cfg name src tgt files idxFiles hm]
    simp only
    rw [processCollection_zero cfg name src tgt files idxFiles hm]
    exact ⟨fun id h => h, by trivial, by trivial, by trivial⟩
  · have h1 := processCollection_noprobe cfg name src tgt files idxFiles hnp hm
    have ht1 := transferStage_incr cfg name (matchedDocs cfg src).length b
      (matchedDocs cfg src) tgt files idxFiles hd hi hx hinc hb hacc
    have hacc2 : ∀ d ∈ matchedDocs cfg src,
        (bulkUpsertUnordered tgt (matchedDocs cfg src)).1.accept d = true := by
      intro d hd2
      rw [upsertAll_accept]
      exact hacc d hd2
    have h2 := processCollection_noprobe cfg name src
      (bulkUpsertUnordered tgt (matchedDocs cfg src)).1 files idxFiles hnp hm
    have ht2 := transferStage_incr cfg name (matchedDocs cfg src).length b
      (matchedDocs cfg src) (bulkUpsertUnordered tgt (matchedDocs cfg src)).1
      files idxFiles hd hi hx hinc hb hacc2
    have hfix : bulkUpsertUnordered (bulkUpsertUnordered tgt (matchedDocs cfg src)).1
        (matchedDocs cfg src) = ((bulkUpsertUnordered tgt (matchedDocs cfg src)).1, false) :=
      upsertAll_fix _ _ hacc2
        (fun d hd2 => upsertAll_find_mem tgt (matchedDocs cfg src) hacc hnd d hd2)
    rw [h1, ht1]
    simp only
    rw [h2, ht2, hfix]
    refine ⟨?_, rfl, rfl, ?_⟩
    · intro id hid
      exact upsertAll_ids tgt (matchedDocs cfg src) id hid
    · exact upsertAll_filter tgt (matchedDocs cfg src) (idsOf (matchedDocs cfg src))
        (fun d hd2 => List.mem_map_of_mem Doc._id hd2)

/-- C3 witness: an incremental sync that matches `docT1` only, against a
target holding an unrelated document with identity 9: the old identity
survives, the unmatched document is unchanged, and a second identical
sync is a no-op. -/
theorem claim_C3_incremental_witness :
    (9 ∈ idsOf (processCollection { incremental := true, since := some 5, batchSize := 2 }
        "c" [docT1, docT2] tWithOld [] []).tgt.docs) ∧
    (processCollection { incremental := true, since := some 5, batchSize := 2 } "c"
        [docT1, docT2]
        (processCollection { incremental := true, since := some 5, batchSize := 2 }
          "c" [docT1, docT2] tWithOld [] []).tgt
        (processCollection { incremental := true, since := some 5, batchSize := 2 }
          "c" [docT1, docT2] tWithOld [] []).files
        (processCollection { incremental := true, since := some 5, batchSize := 2 }
          "c" [docT1, docT2] tWithOld [] []).idxFiles).tgt =
      (processCollection { incremental := true, since := some 5, batchSize := 2 }
        "c" [docT1, docT2] tWithOld [] []).tgt := by
  have h := claim_C3_incremental { incremental := true, since := some 5, batchSize := 2 }
    "c" [docT1, docT2] tWithOld [] [] 1 rfl rfl rfl rfl rfl rfl
    (by decide) (by decide)
  exact ⟨h.1 9 (by decide), h.2.1⟩

/-- C10: the schema probe inserts the sampled document with the sample's
own `_id` preserved (only the `_validationTest` marker is added).  If the
target already holds a document with that identity, the probe insert
raises a duplicate-key error, the collection is recorded
`schema-validation-failed` and skipped with the target untouched — even
when the target's validator would accept everything.  If no such
conflict exists and the document is accepted, the probe insert-and-delete
leaves the target exactly as it was and the transfer proceeds as if the
probe had not run (only the two probe operations are prepended to the
trace). -/
theorem claim_C10_schema_probe (cfg : Config) (name : String) (src : List Doc)
    (tgt : TColl) (files : List (String × List Doc)) (idxFiles : List String)
    (hv : cfg.validateSchema = true) (hd : cfg.dryRun = false)
    (hx : cfg.exportJson = false) (hne : matchedDocs cfg src ≠ []) :
    (dupKey tgt { (matchedDocs cfg src).head hne with validationTest := true } = true →
      processCollection cfg name src tgt files idxFiles =
        { res := .ok { name, copied := 0, total := (matchedDocs cfg src).length,
                       status := "schema-validation-failed",
                       error := some "duplicate key" },
          tgt := tgt, files := files, idxFiles := idxFiles,
          ops := [TOp.probeInsert
            { (matchedDocs cfg src).head hne with validationTest := true }] }) ∧
    (dupKey tgt { (matchedDocs cfg src).head hne with validationTest := true } = false →
      tgt.accept { (matchedDocs cfg src).head hne with validationTest := true } = true →
      processCollection cfg name src tgt files idxFiles =
        (let out := transferStage cfg name (matchedDocs cfg src).length
           (matchedDocs cfg src) tgt files idxFiles
         { out with ops :=
             [TOp.probeInsert { (matchedDocs cfg src).head hne with validationTest := true },
              TOp.probeDelete
                ({ (matchedDocs cfg src).head hne with validationTest := true } : Doc)._id]
             ++ out.ops })) := by
  constructor
  · intro hdup
    have hp : schemaProbe tgt ((matchedDocs cfg src).head hne) =
        (.error "duplicate key",
         [TOp.probeInsert { (matchedDocs cfg src).head hne with validationTest := true }]) := by
      simp [schemaProbe, insertOne, hdup]
    exact processCollection_probe_fail cfg name src tgt files idxFiles _ _ hv hd hx hne hp
  · intro hdup haccp
    have hp : schemaProbe tgt ((matchedDocs cfg src).head hne) =
        (.ok (deleteOneById
          { tgt with docs := tgt.docs ++
              [{ (matchedDocs cfg src).head hne with validationTest := true }] }
          ({ (matchedDocs cfg src).head hne with validationTest := true } : Doc)._id),
         [TOp.probeInsert { (matchedDocs cfg src).head hne with validationTest := true },
          TOp.probeDelete
            ({ (matchedDocs cfg src).head hne with validationTest := true } : Doc)._id]) := by
      simp [schemaProbe, insertOne, hdup, haccp]
    exact processCollection_probe_ok cfg name src tgt files idxFiles _ _ hv hd hx hne hp

/-- C10 witness: with the target already holding a document of identity
1 (the sample's identity) and an accept-everything validator, the probe
fails with a duplicate-key error and the collection is skipped; with a
conflict-free target the run proceeds and copies the document. -/
theorem claim_C10_schema_probe_witness :
    processCollection { validateSchema := true } "c" [docA] tWithA [] [] =
      { res := .ok { name := "c", copied := 0, total := 1,
                     status := "schema-validation-failed",
                     error := some "duplicate key" },
        tgt := tWithA, files := [], idxFiles := [],
        ops := [TOp.probeInsert { docA with validationTest := true }] } ∧
    processCollection { validateSchema := true } "c" [docA] tWithOld [] [] =
      (let out := transferStage { validateSchema := true } "c" 1 [docA] tWithOld [] []
       { out with ops :=
           [TOp.probeInsert { docA with validationTest := true },
            TOp.probeDelete 1] ++ out.ops }) := by
  have h1 := (claim_C10_schema_probe { validateSchema := true } "c" [docA] tWithA [] []
    rfl rfl rfl (by decide)).1 (by decide)
  have h2 := (claim_C10_schema_probe { validateSchema := true } "c" [docA] tWithOld [] []
    rfl rfl rfl (by decide)).2 (by decide) (by decide)
  exact ⟨h1, h2⟩

/-- C1 counterexample: in collection `c` the batch write raises (the
target rejects the document and schema validation is off); the exception
escapes the loop, the caller gets an error instead of a result list, and
collection `d` — although selected — is never attempted (only one
per-collection trace exists).  The run therefore does abort on a single
collection's transfer failure, contradicting the claim. -/
theorem claim_C1_counterexample :
    (copyCollections {} wReject true true).res = Except.error "insert error" ∧
    (copyCollections {} wReject true true).traces.length = 1 ∧
    resolveCollections ([] : List String) (wReject.src.map Prod.fst) = ["c", "d"] := by
  refine ⟨rfl, rfl, rfl⟩

/-- C1 amended: a schema-validation failure is caught at the collection
boundary, recorded as a `schema-validation-failed` result, and the loop
proceeds; and whenever the run returns normally the caller receives
exactly one result per attempted collection, in order.  But an unhandled
transfer error (a raising batch write) is not caught and aborts the whole
run. -/
theorem claim_C1_isolation :
    (∀ cfg w rs, (copyCollections cfg w true true).res = .ok rs →
      rs.map CollResult.name = resolveCollections cfg.collections (w.src.map Prod.fst)) ∧
    (∀ cfg name src tgt files idxFiles e pOps,
      cfg.validateSchema = true → cfg.dryRun = false → cfg.exportJson = false →
      ∀ (hne : matchedDocs cfg src ≠ []),
      schemaProbe tgt ((matchedDocs cfg src).head hne) = (.error e, pOps) →
      (processCollection cfg name src tgt files idxFiles).res =
        .ok { name, copied := 0, total := (matchedDocs cfg src).length,
              status := "schema-validation-failed", error := some e }) := by
  constructor
  · intro cfg w rs h
    exact copyCollections_ok_names cfg w rs h
  · intro cfg name src tgt files idxFiles e pOps hv hd hx hne hp
    rw [processCollection_probe_fail cfg name src tgt files idxFiles e pOps hv hd hx hne hp]

/-- C1 witness: a completed two-collection run yields one result per
collection in order, and a failing schema probe yields a recorded
`schema-validation-failed` result rather than an exception. -/
theorem claim_C1_isolation_witness :
    List.map CollResult.name
      [{ name := "a", copied := 1, total := 1, status := "copied" },
       { name := "b", copied := 1, total := 1, status := "copied" }] =
      resolveCollections ([] : List String) (wTwo.src.map Prod.fst) ∧
    (processCollection { validateSchema := true } "c" [docA] tWithA [] []).res =
      .ok { name := "c", copied := 0, total := 1,
            status := "schema-validation-failed", error := some "duplicate key" } := by
  refine ⟨claim_C1_isolation.1 {} wTwo _ rfl, ?_⟩
  have h := claim_C1_isolation.2 { validateSchema := true } "c" [docA] tWithA [] []
    "duplicate key"
    [TOp.probeInsert { docA with validationTest := true }]
    rfl rfl rfl (by decide) rfl
  simpa using h

end MongoCopy
